import Mathlib

set_option maxHeartbeats 1000000

/-!
Verification of the document chunking and merging engine of the
`resolute-transform` package.  The Go source is embedded shallowly:
Go strings become `String` (lists of unicode scalar values, matching Go
runes), Go `int` becomes `Int`, Go slices become `List`, Go maps become
association lists, and the single panicking operation (slice indexing
with an out-of-range bound) is modelled by an `Option` result where
`none` means the Go code panics.
-/

/-- Whitespace classification used by `strings.Fields` in the source:
the Unicode White_Space property, as decided by Go `unicode.IsSpace`. -/
def goIsSpace (c : Char) : Bool :=
  let n := c.toNat
  (decide (9 ≤ n) && decide (n ≤ 13)) || decide (n = 32) || decide (n = 133) ||
    decide (n = 160) || decide (n = 5760) ||
    (decide (8192 ≤ n) && decide (n ≤ 8202)) || decide (n = 8232) ||
    decide (n = 8233) || decide (n = 8239) || decide (n = 8287) || decide (n = 12288)

/-- Split a character list at every whitespace character, keeping the
(possibly empty) segments between them. -/
def splitByWS : List Char → List (List Char)
  | [] => [[]]
  | c :: rest =>
    if goIsSpace c then [] :: splitByWS rest
    else
      match splitByWS rest with
      | [] => [[c]]
      | w :: ws => (c :: w) :: ws

/-- Go `strings.Fields`: split around runs of whitespace, discarding
empty strings. -/
def goFields (s : String) : List String :=
  ((splitByWS s.data).filter (fun w => w ≠ [])).map String.mk

/-- Splitting loop of Go `strings.Split` for a nonempty separator
`s0 :: srest`: cut at every leftmost non-overlapping occurrence.  The
fuel argument bounds the number of examined characters; fuel equal to
the length of the input is always sufficient. -/
def goSplitNE (s0 : Char) (srest : List Char) : Nat → List Char → List Char → List (List Char)
  | _, [], acc => [acc.reverse]
  | 0, l, acc => [acc.reverse ++ l]
  | fuel + 1, c :: rest, acc =>
    if (s0 :: srest).isPrefixOf (c :: rest) then
      acc.reverse :: goSplitNE s0 srest fuel (rest.drop srest.length) []
    else goSplitNE s0 srest fuel rest (c :: acc)

/-- Go `strings.Split`: an empty separator explodes the string into its
unicode characters, a nonempty separator cuts at each occurrence. -/
def goSplit (s sep : String) : List String :=
  match sep.data with
  | [] => s.data.map (fun c => String.mk [c])
  | s0 :: srest => (goSplitNE s0 srest s.data.length s.data []).map String.mk

/-- Occurrence of a character sequence inside another, as needed to state
that a separator "does not occur in the text". -/
def occursIn (sep : List Char) : List Char → Bool
  | [] => sep.isEmpty
  | c :: rest => (sep.isPrefixOf (c :: rest)) || occursIn sep rest

/-- `tokenize` from src/chunk.go: split the text on the separator into
paragraphs, split each paragraph into whitespace-delimited words, and
concatenate the words of all paragraphs in order. -/
def tokenize (text separator : String) : List String :=
  ((goSplit text separator).map goFields).flatten

/-- Go `strings.Join` with a separator. -/
def goJoin (sep : String) : List String → String
  | [] => ""
  | a :: rest => rest.foldl (fun acc x => acc ++ sep ++ x) a

/-- Digit loop of `itoa` from src/chunk.go; the fuel of 20 models the
20-byte buffer of the source. -/
def itoaAux : Nat → Nat → List Char → List Char
  | 0, _, acc => acc
  | fuel + 1, i, acc =>
    if i = 0 then acc
    else itoaAux fuel (i / 10) (Char.ofNat (48 + i % 10) :: acc)

/-- `itoa` from src/chunk.go: decimal rendering of an integer. -/
def itoa (i : Int) : String :=
  if i = 0 then "0"
  else if i < 0 then String.mk (Char.ofNat 45 :: itoaAux 20 i.natAbs [])
  else String.mk (itoaAux 20 i.natAbs [])

/-- The Document record from src/document.go.  `Metadata` distinguishes
an absent map (`none`) from a present association list; `UpdatedAt` is an
opaque timestamp. -/
structure Document where
  ID : String
  Content : String
  Title : String
  Source : String
  URL : String
  Metadata : Option (List (String × String))
  ChunkIndex : Int
  ParentID : String
  UpdatedAt : Int
deriving DecidableEq, Repr

/-- Go conversion `string(r)` of a rune to a string: valid code points
become a one-character string, invalid ones the replacement character. -/
def goRuneToString (r : Int) : String :=
  if (0 ≤ r ∧ r < 55296) ∨ (57344 ≤ r ∧ r ≤ 1114111) then
    String.mk [Char.ofNat r.toNat]
  else String.mk [Char.ofNat 65533]

/-- `Document.AsChunk` from src/document.go: sets parent linkage and
builds the ID with Go `string(rune('0'+index))`. -/
def Document.AsChunk (d : Document) (parentID : String) (index : Int) : Document :=
  { d with
    ParentID := parentID
    ChunkIndex := index
    ID := parentID ++ "#" ++ goRuneToString (48 + index) }

/-- ChunkOptions from src/chunk.go. -/
structure ChunkOptions where
  MaxTokens : Int
  Overlap : Int
  Separator : String
deriving DecidableEq, Repr

/-- `DefaultChunkOptions` from src/chunk.go. -/
def DefaultChunkOptions : ChunkOptions :=
  { MaxTokens := 512, Overlap := 50, Separator := "\n\n" }

/-- Go map assignment `m[k] = v` on the association-list model: replace
the value if the key is present, otherwise append the binding. -/
def mapInsert (m : List (String × String)) (k v : String) : List (String × String) :=
  if m.any (fun kv => kv.1 = k) then
    m.map (fun kv => if kv.1 = k then (k, v) else kv)
  else m ++ [(k, v)]

/-- `copyMetadata` from src/chunk.go: nil stays nil, otherwise a fresh
map is built by inserting every binding of the source. -/
def copyMetadata : Option (List (String × String)) → Option (List (String × String))
  | none => none
  | some m => some (m.foldl (fun cp kv => mapInsert cp kv.1 kv.2) [])

/-- The clamped window step of `chunkDocument`:
`step := MaxTokens - Overlap; if step < 1 { step = 1 }`. -/
def stepOf (opts : ChunkOptions) : Int :=
  if opts.MaxTokens - opts.Overlap < 1 then 1 else opts.MaxTokens - opts.Overlap

/-- The clipped window end of one iteration of `chunkDocument`:
`end := start + MaxTokens; if end > len(tokens) { end = len(tokens) }`. -/
def chunkEnd (opts : ChunkOptions) (tokens : List String) (start : Nat) : Int :=
  if (start : Int) + opts.MaxTokens > (tokens.length : Int) then (tokens.length : Int)
  else (start : Int) + opts.MaxTokens

/-- The chunk literal emitted by one iteration of `chunkDocument`
(src/chunk.go lines 164-176). -/
def mkChunk (doc : Document) (tokens : List String) (start e chunkIdx : Nat) : Document :=
  { doc with
    ID := doc.ID ++ "#" ++ itoa (chunkIdx : Int)
    Content := goJoin (" ") ((tokens.drop start).take (e - start))
    Metadata := copyMetadata doc.Metadata
    ChunkIndex := (chunkIdx : Int)
    ParentID := doc.ID }

/-- Sliding-window loop of `chunkDocument` (src/chunk.go lines 158-190).
`none` models the Go panic of `tokens[start:end]` when `end < start`
(which happens exactly when `MaxTokens` is negative).  The fuel bounds
the number of iterations; a fuel of `tokens.length` is always enough
because the start index advances by at least one per iteration. -/
def chunkLoop (doc : Document) (opts : ChunkOptions) (tokens : List String) :
    Nat → Nat → Nat → Option (List Document)
  | 0, start, _ =>
    if start < tokens.length then none else some []
  | fuel + 1, start, chunkIdx =>
    if start < tokens.length then
      if chunkEnd opts tokens start < (start : Int) then none
      else if (tokens.length : Int) ≤ chunkEnd opts tokens start then
        some [mkChunk doc tokens start (chunkEnd opts tokens start).toNat chunkIdx]
      else
        (chunkLoop doc opts tokens fuel (start + (stepOf opts).toNat) (chunkIdx + 1)).map
          (fun rest => mkChunk doc tokens start (chunkEnd opts tokens start).toNat chunkIdx :: rest)
    else some []

/-- `chunkDocument` from src/chunk.go: empty content and documents of at
most `MaxTokens` tokens are returned unchanged; larger documents go
through the sliding-window loop. -/
def chunkDocument (doc : Document) (opts : ChunkOptions) : Option (List Document) :=
  if doc.Content = "" then some [doc]
  else
    let tokens := tokenize doc.Content opts.Separator
    if (tokens.length : Int) ≤ opts.MaxTokens then some [doc]
    else chunkLoop doc opts tokens tokens.length 0 0

/-- ChunkInput from src/chunk.go. -/
structure ChunkInput where
  Documents : List Document
  Options : ChunkOptions
deriving DecidableEq, Repr

/-- ChunkOutput from src/chunk.go. -/
structure ChunkOutput where
  Documents : List Document
  Count : Int
deriving DecidableEq, Repr

/-- Option resolution of the activities: `opts := input.Options;
if opts.MaxTokens == 0 { opts = DefaultChunkOptions() }`. -/
def resolveOptions (opts : ChunkOptions) : ChunkOptions :=
  if opts.MaxTokens = 0 then DefaultChunkOptions else opts

/-- `ChunkActivity` from src/chunk.go: resolve options (a zero MaxTokens
selects the defaults), chunk every document and concatenate.  The Go
error result is always nil; `none` models a panic escaping the
activity. -/
def ChunkActivity (input : ChunkInput) : Option (ChunkOutput × Option String) :=
  match input.Documents.mapM (fun d => chunkDocument d (resolveOptions input.Options)) with
  | none => none
  | some ls =>
    some ({ Documents := ls.flatten, Count := ((ls.flatten).length : Int) }, none)

/-- The DocumentSource capability: anything that yields documents. -/
structure DocumentSource where
  toDocuments : List Document
deriving DecidableEq, Repr

/-- MergeAndChunkInput from src/chunk.go. -/
structure MergeAndChunkInput where
  Sources : List DocumentSource
  Options : ChunkOptions
deriving DecidableEq, Repr

/-- MergeAndChunkOutput from src/chunk.go. -/
structure MergeAndChunkOutput where
  Documents : List Document
  Count : Int
deriving DecidableEq, Repr

/-- `MergeAndChunkActivity` from src/chunk.go: concatenate the sources,
resolve options, chunk every document, concatenate the chunks. -/
def MergeAndChunkActivity (input : MergeAndChunkInput) :
    Option (MergeAndChunkOutput × Option String) :=
  match ((input.Sources.map DocumentSource.toDocuments).flatten).mapM
      (fun d => chunkDocument d (resolveOptions input.Options)) with
  | none => none
  | some ls =>
    some ({ Documents := ls.flatten, Count := ((ls.flatten).length : Int) }, none)

/-- MergeInput from src/merge.go. -/
structure MergeInput where
  Sources : List DocumentSource
deriving DecidableEq, Repr

/-- MergeOutput from src/merge.go. -/
structure MergeOutput where
  Documents : List Document
  Count : Int
deriving DecidableEq, Repr

/-- `MergeActivity` from src/merge.go: concatenate the sources in
order; the error is always nil and no panic is reachable. -/
def MergeActivity (input : MergeInput) : Option (MergeOutput × Option String) :=
  some
    ({ Documents := input.Sources.foldl (fun acc s => acc ++ s.toDocuments) [],
       Count := ((input.Sources.foldl (fun acc s => acc ++ s.toDocuments) []).length : Int) },
      none)

/-- `MergeDocuments` from src/merge.go: append the document lists in the
order given. -/
def MergeDocuments (sources : List (List Document)) : List Document :=
  sources.foldl (fun docs s => docs ++ s) []

/-- `MergeSources` from src/merge.go: append the sources' document lists
in the order given. -/
def MergeSources (sources : List DocumentSource) : List Document :=
  sources.foldl (fun docs s => docs ++ s.toDocuments) []

/-! ### General helper lemmas -/

lemma foldl_append_eq_flatten {α : Type} (ls : List (List α)) (acc : List α) :
    ls.foldl (fun docs s => docs ++ s) acc = acc ++ ls.flatten := by
  induction ls generalizing acc with
  | nil => simp
  | cons l ls ih => simp [ih, List.append_assoc]

lemma goJoin_concat (sep : String) (xs : List String) (t : String) :
    ∃ p, goJoin sep (xs ++ [t]) = p ++ t := by
  cases xs with
  | nil => exact ⟨"", by simp [goJoin]⟩
  | cons x xs =>
    refine ⟨(xs.foldl (fun acc y => acc ++ sep ++ y) x) ++ sep, ?_⟩
    simp [goJoin, List.foldl_append]

lemma div_ceil_step (d s : Nat) (hs : 1 ≤ s) (hd : 1 ≤ d) :
    (d + s - 1) / s = ((d - s) + s - 1) / s + 1 := by
  rcases Nat.lt_or_ge d s with h | h
  · have h1 : d - s = 0 := Nat.sub_eq_zero_of_le (le_of_lt h)
    have hL : (d + s - 1) / s = 1 := Nat.div_eq_of_lt_le (by omega) (by omega)
    have hR : ((d - s) + s - 1) / s = 0 := by
      rw [h1]; exact Nat.div_eq_of_lt (by omega)
    omega
  · have h2 : (d - s) + s - 1 = d - 1 := by omega
    have h3 : d + s - 1 = (d - 1) + s := by omega
    rw [h2, h3, Nat.add_div_right _ (by omega)]

/-! ### Properties of the sliding-window loop -/

lemma stepOf_pos (opts : ChunkOptions) : 1 ≤ stepOf opts := by
  unfold stepOf; split <;> omega

lemma stepOf_toNat_pos (opts : ChunkOptions) : 1 ≤ (stepOf opts).toNat := by
  have := stepOf_pos opts; omega

lemma stepOf_toNat_le (opts : ChunkOptions) (hM : 1 ≤ opts.MaxTokens)
    (hov : 0 ≤ opts.Overlap) : (stepOf opts).toNat ≤ opts.MaxTokens.toNat := by
  unfold stepOf; split <;> omega

lemma chunkLoop_succ_in (doc : Document) (opts : ChunkOptions) (tokens : List String)
    (fuel start cidx : Nat) (h : start < tokens.length) :
    chunkLoop doc opts tokens (fuel + 1) start cidx =
      if chunkEnd opts tokens start < (start : Int) then none
      else if (tokens.length : Int) ≤ chunkEnd opts tokens start then
        some [mkChunk doc tokens start (chunkEnd opts tokens start).toNat cidx]
      else
        (chunkLoop doc opts tokens fuel (start + (stepOf opts).toNat) (cidx + 1)).map
          (fun rest => mkChunk doc tokens start (chunkEnd opts tokens start).toNat cidx :: rest) := by
  rw [chunkLoop, if_pos h]

lemma chunkEnd_of_ge (opts : ChunkOptions) (tokens : List String) (start : Nat)
    (hM : 0 ≤ opts.MaxTokens) (h : (tokens.length : Int) ≤ (start : Int) + opts.MaxTokens) :
    chunkEnd opts tokens start = (tokens.length : Int) := by
  unfold chunkEnd; split <;> omega

lemma chunkEnd_of_lt (opts : ChunkOptions) (tokens : List String) (start : Nat)
    (h : (start : Int) + opts.MaxTokens < (tokens.length : Int)) :
    chunkEnd opts tokens start = (start : Int) + opts.MaxTokens := by
  unfold chunkEnd; split <;> omega

lemma take_drop_self (tokens : List String) (start : Nat) :
    (tokens.drop start).take (tokens.length - start) = tokens.drop start := by
  rw [← List.length_drop, List.take_length]

lemma chunkLoop_spec (doc : Document) (opts : ChunkOptions) (tokens : List String)
    (hM : 1 ≤ opts.MaxTokens) (hov : 0 ≤ opts.Overlap) :
    ∀ fuel start cidx, start < tokens.length → tokens.length - start ≤ fuel →
    ∃ l, chunkLoop doc opts tokens fuel start cidx = some l ∧
      l.length = ((tokens.length - opts.MaxTokens.toNat - start) + (stepOf opts).toNat - 1) /
        (stepOf opts).toNat + 1 ∧
      ∃ st2 c, start ≤ st2 ∧ st2 < tokens.length ∧ l.getLast? = some c ∧
        c.Content = goJoin (" ") (tokens.drop st2) := by
  intro fuel
  induction fuel with
  | zero => intro start cidx h1 h2; omega
  | succ fuel ih =>
    intro start cidx h1 h2
    have hs1 : 1 ≤ (stepOf opts).toNat := stepOf_toNat_pos opts
    have hsm : (stepOf opts).toNat ≤ opts.MaxTokens.toNat := stepOf_toNat_le opts hM hov
    have hm1 : 1 ≤ opts.MaxTokens.toNat := by omega
    rw [chunkLoop_succ_in doc opts tokens fuel start cidx h1]
    by_cases hA : (tokens.length : Int) ≤ (start : Int) + opts.MaxTokens
    · -- final window: the chunk reaches the end of the token sequence
      have hE : chunkEnd opts tokens start = (tokens.length : Int) :=
        chunkEnd_of_ge opts tokens start (by omega) hA
      rw [hE, if_neg (by omega), if_pos (by omega)]
      refine ⟨_, rfl, ?_, start, _, le_refl start, h1, rfl, ?_⟩
      · have hz : tokens.length - opts.MaxTokens.toNat - start = 0 := by omega
        have hdiv : ((stepOf opts).toNat - 1) / (stepOf opts).toNat = 0 :=
          Nat.div_eq_of_lt (by omega)
        simp [hz, hdiv]
      · show (mkChunk doc tokens start ((tokens.length : Int)).toNat cidx).Content = _
        unfold mkChunk
        simp only [Int.toNat_natCast]
        rw [take_drop_self]
    · -- intermediate window: recurse after advancing by the clamped step
      have hlt : (start : Int) + opts.MaxTokens < (tokens.length : Int) := by omega
      have hE : chunkEnd opts tokens start = (start : Int) + opts.MaxTokens :=
        chunkEnd_of_lt opts tokens start hlt
      rw [hE, if_neg (by omega), if_neg (by omega)]
      obtain ⟨rest, hrest, hlen, st2, c, hst2a, hst2b, hlast, hcont⟩ :=
        ih (start + (stepOf opts).toNat) (cidx + 1) (by omega) (by omega)
      rw [hrest]
      refine ⟨_, rfl, ?_, st2, c, by omega, hst2b, ?_, hcont⟩
      · have hd : 1 ≤ tokens.length - opts.MaxTokens.toNat - start := by omega
        have hsub : tokens.length - opts.MaxTokens.toNat - (start + (stepOf opts).toNat) =
            (tokens.length - opts.MaxTokens.toNat - start) - (stepOf opts).toNat := by omega
        rw [List.length_cons, hlen, hsub,
          div_ceil_step (tokens.length - opts.MaxTokens.toNat - start) (stepOf opts).toNat hs1 hd]
      · cases rest with
        | nil => simp at hlast
        | cons r rest2 => rw [List.getLast?_cons_cons]; exact hlast

lemma chunkEnd_not_panic (opts : ChunkOptions) (tokens : List String) (start : Nat)
    (hM : 0 ≤ opts.MaxTokens) (h : start < tokens.length) :
    ¬ chunkEnd opts tokens start < (start : Int) := by
  unfold chunkEnd; split <;> omega

lemma chunkLoop_isSome (doc : Document) (opts : ChunkOptions) (tokens : List String)
    (hM : 0 ≤ opts.MaxTokens) :
    ∀ fuel start cidx, tokens.length - start ≤ fuel →
    (chunkLoop doc opts tokens fuel start cidx).isSome := by
  intro fuel
  induction fuel with
  | zero =>
    intro start cidx h2
    simp only [chunkLoop]
    rw [if_neg (by omega)]
    simp
  | succ fuel ih =>
    intro start cidx h2
    by_cases h1 : start < tokens.length
    · rw [chunkLoop_succ_in doc opts tokens fuel start cidx h1,
        if_neg (chunkEnd_not_panic opts tokens start hM h1)]
      by_cases hbr : (tokens.length : Int) ≤ chunkEnd opts tokens start
      · rw [if_pos hbr]; simp
      · rw [if_neg hbr]
        have hrec := ih (start + (stepOf opts).toNat) (cidx + 1)
          (by have := stepOf_toNat_pos opts; omega)
        simpa using hrec
    · simp only [chunkLoop]
      rw [if_neg h1]
      simp

lemma chunkLoop_fuel_stable (doc : Document) (opts : ChunkOptions) (tokens : List String) :
    ∀ fuel1 fuel2 start cidx, tokens.length - start ≤ fuel1 → tokens.length - start ≤ fuel2 →
    chunkLoop doc opts tokens fuel1 start cidx = chunkLoop doc opts tokens fuel2 start cidx := by
  intro fuel1
  induction fuel1 with
  | zero =>
    intro fuel2 start cidx h1 h2
    have hge : ¬ start < tokens.length := by omega
    cases fuel2 with
    | zero => rfl
    | succ f2 => simp only [chunkLoop]; rw [if_neg hge, if_neg hge]
  | succ f1 ih =>
    intro fuel2 start cidx h1 h2
    by_cases hlt : start < tokens.length
    · cases fuel2 with
      | zero => omega
      | succ f2 =>
        rw [chunkLoop_succ_in doc opts tokens f1 start cidx hlt,
          chunkLoop_succ_in doc opts tokens f2 start cidx hlt]
        by_cases hp : chunkEnd opts tokens start < (start : Int)
        · rw [if_pos hp, if_pos hp]
        · rw [if_neg hp, if_neg hp]
          by_cases hq : (tokens.length : Int) ≤ chunkEnd opts tokens start
          · rw [if_pos hq, if_pos hq]
          · rw [if_neg hq, if_neg hq]
            rw [ih f2 (start + (stepOf opts).toNat) (cidx + 1)
              (by have := stepOf_toNat_pos opts; omega)
              (by have := stepOf_toNat_pos opts; omega)]
    · cases fuel2 with
      | zero => simp only [chunkLoop]; rw [if_neg hlt, if_neg hlt]
      | succ f2 => simp only [chunkLoop]; rw [if_neg hlt, if_neg hlt]

lemma chunkLoop_metadata (doc : Document) (opts : ChunkOptions) (tokens : List String) :
    ∀ fuel start cidx l, chunkLoop doc opts tokens fuel start cidx = some l →
    ∀ c ∈ l, c.Metadata = copyMetadata doc.Metadata := by
  intro fuel
  induction fuel with
  | zero =>
    intro start cidx l hl c hc
    simp only [chunkLoop] at hl
    split at hl
    · exact absurd hl (by simp)
    · obtain rfl : ([] : List Document) = l := Option.some.inj hl
      simp at hc
  | succ fuel ih =>
    intro start cidx l hl c hc
    by_cases hlt : start < tokens.length
    · rw [chunkLoop_succ_in doc opts tokens fuel start cidx hlt] at hl
      split at hl
      · exact absurd hl (by simp)
      · split at hl
        · obtain rfl : _ = l := Option.some.inj hl
          rcases List.mem_singleton.mp hc with rfl
          rfl
        · cases hrec : chunkLoop doc opts tokens fuel (start + (stepOf opts).toNat) (cidx + 1) with
          | none => rw [hrec] at hl; exact absurd hl (by simp)
          | some rest =>
            rw [hrec] at hl
            obtain rfl : _ = l := Option.some.inj hl
            rcases List.mem_cons.mp hc with rfl | hmem
            · rfl
            · exact ih _ _ rest hrec c hmem
    · simp only [chunkLoop] at hl
      rw [if_neg hlt] at hl
      obtain rfl : ([] : List Document) = l := Option.some.inj hl
      simp at hc

/-! ### Properties of the tokenizer -/

lemma stringMkData (s : String) : String.mk s.data = s := by
  obtain ⟨d⟩ := s; rfl

lemma goSplitNE_no_occur (s0 : Char) (srest : List Char) :
    ∀ fuel l acc, occursIn (s0 :: srest) l = false → l.length ≤ fuel →
    goSplitNE s0 srest fuel l acc = [acc.reverse ++ l] := by
  intro fuel
  induction fuel with
  | zero =>
    intro l acc h hf
    cases l with
    | nil => simp [goSplitNE]
    | cons c rest => simp at hf
  | succ fuel ih =>
    intro l acc h hf
    cases l with
    | nil => simp [goSplitNE]
    | cons c rest =>
      simp only [occursIn, Bool.or_eq_false_iff] at h
      simp only [goSplitNE]
      rw [if_neg (by simp [h.1])]
      rw [ih rest (c :: acc) h.2 (by simpa using hf)]
      simp

lemma goSplit_single (text sep : String) (hne : sep ≠ "")
    (hno : occursIn sep.data text.data = false) : goSplit text sep = [text] := by
  unfold goSplit
  rcases hsep : sep.data with _ | ⟨s0, srest⟩
  · obtain ⟨d⟩ := sep
    simp only [String.data] at hsep
    subst hsep
    exact absurd rfl hne
  · show List.map String.mk (goSplitNE s0 srest text.data.length text.data []) = [text]
    rw [goSplitNE_no_occur s0 srest text.data.length text.data [] (by rw [← hsep]; exact hno)
      (le_refl _)]
    simp [stringMkData]

lemma tokenize_single_paragraph (text sep : String) (hne : sep ≠ "")
    (hno : occursIn sep.data text.data = false) : tokenize text sep = goFields text := by
  unfold tokenize
  rw [goSplit_single text sep hne hno]
  simp

lemma goFields_single_char (c : Char) :
    goFields (String.mk [c]) = if goIsSpace c then [] else [String.mk [c]] := by
  by_cases hc : goIsSpace c <;> simp [goFields, splitByWS, hc]

lemma tokenize_empty_sep (text : String) :
    tokenize text "" =
      (text.data.filter (fun c => !goIsSpace c)).map (fun c => String.mk [c]) := by
  unfold tokenize goSplit
  have h : ("" : String).data = [] := rfl
  rw [h]
  show ((text.data.map (fun c => String.mk [c])).map goFields).flatten = _
  induction text.data with
  | nil => simp
  | cons c cs ih =>
    simp only [List.map_map] at ih
    by_cases hc : goIsSpace c <;>
      simp [goFields_single_char, hc, ih]

lemma tokenize_empty_content (sep : String) : tokenize ("") sep = [] := by
  unfold tokenize goSplit
  rcases hsep : sep.data with _ | ⟨s0, srest⟩
  · rfl
  · show (List.map goFields
      (List.map String.mk
        (goSplitNE s0 srest (("" : String).data.length) ("" : String).data []))).flatten = []
    have h2 : goSplitNE s0 srest (("" : String).data.length) ("" : String).data [] = [[]] := rfl
    rw [h2]
    simp [goFields, splitByWS]

/-! ### Properties of metadata copying -/

lemma mapInsert_of_not_mem (m : List (String × String)) (k v : String)
    (h : m.any (fun kv => kv.1 = k) = false) : mapInsert m k v = m ++ [(k, v)] := by
  simp only [mapInsert, h]
  simp

lemma foldl_mapInsert_disjoint :
    ∀ (m acc : List (String × String)), (m.map Prod.fst).Nodup →
    (∀ k ∈ m.map Prod.fst, acc.any (fun kv => kv.1 = k) = false) →
    m.foldl (fun cp kv => mapInsert cp kv.1 kv.2) acc = acc ++ m := by
  intro m
  induction m with
  | nil => intro acc _ _; simp
  | cons kv m ih =>
    intro acc hnd hdis
    have hnd2 : kv.1 ∉ m.map Prod.fst ∧ (m.map Prod.fst).Nodup := by
      simpa only [List.map_cons, List.nodup_cons] using hnd
    simp only [List.foldl_cons]
    rw [mapInsert_of_not_mem acc kv.1 kv.2 (hdis kv.1 (by simp))]
    rw [ih (acc ++ [(kv.1, kv.2)]) hnd2.2 ?_]
    · simp
    · intro k hk
      have h1 : acc.any (fun kv2 => kv2.1 = k) = false :=
        hdis k (by simp only [List.map_cons, List.mem_cons]; right; exact hk)
      have h2 : kv.1 ≠ k := fun hEq => hnd2.1 (hEq ▸ hk)
      simp [List.any_append, h1, h2]

lemma copyMetadata_eq (md : Option (List (String × String)))
    (hnd : ∀ m, md = some m → (m.map Prod.fst).Nodup) : copyMetadata md = md := by
  cases md with
  | none => rfl
  | some m =>
    simp only [copyMetadata]
    rw [foldl_mapInsert_disjoint m [] (hnd m rfl) (by intro k _; rfl)]
    simp

/-! ### A heap model of Go map aliasing

The pure embedding above copies metadata by value, so the deep-copy
invariant of `copyMetadata` (mutating a chunk's map never mutates the
parent's map) is stated against a small heap: addresses index a store of
maps, `heapCopyMetadata` is `copyMetadata` performed on that store (nil
stays nil, otherwise a fresh map is allocated and every binding of the
source map is inserted into it), and `heapSet` is Go `m[k] = v` applied
at an address. -/

structure MetaHeap where
  maps : List (List (String × String))
deriving DecidableEq, Repr

/-- Allocate a fresh map: Go `make(map[string]string, n)` followed by the
copying loop produces a new object, here a new address. -/
def heapAlloc (h : MetaHeap) (m : List (String × String)) : MetaHeap × Nat :=
  (⟨h.maps ++ [m]⟩, h.maps.length)

/-- `copyMetadata` on the heap: nil stays nil; otherwise allocate a fresh
map holding the same bindings. -/
def heapCopyMetadata (h : MetaHeap) (addr : Option Nat) : MetaHeap × Option Nat :=
  match addr with
  | none => (h, none)
  | some a =>
    let src := h.maps.getD a []
    let copied := src.foldl (fun cp kv => mapInsert cp kv.1 kv.2) []
    ((heapAlloc h copied).1, some (heapAlloc h copied).2)

/-- Go `m[k] = v` performed on the map stored at address `a`. -/
def heapSet (h : MetaHeap) (a : Nat) (k v : String) : MetaHeap :=
  ⟨h.maps.set a (mapInsert (h.maps.getD a []) k v)⟩

lemma heap_copy_spec (h : MetaHeap) (a : Nat) (ha : a < h.maps.length)
    (hnd : ((h.maps.getD a []).map Prod.fst).Nodup) (k v : String) :
    (heapCopyMetadata h (some a)).2 = some h.maps.length ∧
    h.maps.length ≠ a ∧
    (heapCopyMetadata h (some a)).1.maps.getD h.maps.length [] = h.maps.getD a [] ∧
    (heapSet (heapCopyMetadata h (some a)).1 h.maps.length k v).maps.getD a [] =
      h.maps.getD a [] := by
  have hcopied : (h.maps.getD a []).foldl (fun cp kv => mapInsert cp kv.1 kv.2) [] =
      h.maps.getD a [] := by
    rw [foldl_mapInsert_disjoint (h.maps.getD a []) [] hnd (by intro k2 _; rfl)]
    simp
  refine ⟨rfl, by omega, ?_, ?_⟩
  · show (h.maps ++ [_]).getD h.maps.length [] = _
    rw [List.getD_eq_getElem?_getD, List.getElem?_concat_length]
    simpa using hcopied
  · show ((h.maps ++ [_]).set h.maps.length _).getD a [] = _
    rw [List.getD_eq_getElem?_getD, List.getElem?_set_ne (by omega),
      List.getElem?_append_left ha, ← List.getD_eq_getElem?_getD]

/-! ### Storage model and merge-by-reference

The storage collaborator (`core.GetStorage`, `StoreJSON`, `LoadJSON`,
`DataRef.WithChecksum`, the `SchemaDocuments` tag) lives outside the
embedded sources, so it is modelled abstractly from the spec; the
operations of src/storage.go and src/merge.go are embedded on top of it.
Every storage access is recorded in a call log so that "the store is
never called" is a statement about the log. -/

/-- A reference to a persisted document collection: schema tag, count and
integrity checksum (spec section 6). -/
structure DataRef where
  Schema : String
  Count : Int
  Checksum : String
deriving DecidableEq, Repr

/-- Modelled from the spec: the external store collaborator, with
`LoadJSON` and `StoreJSON` operations that may fail. -/
structure Storage where
  loadJSON : DataRef → Except String (List Document)
  storeJSON : String → List Document → Except String DataRef

/-- Modelled from the spec: the ambient world seen by the reference
round-trip code: `core.GetStorage` (which may fail), `json.Marshal` on
document lists (which cannot fail for this type), and the checksum
function used by `DataRef.WithChecksum`. -/
structure World where
  getStorage : Except String Storage
  marshal : List Document → String
  checksum : String → String

/-- One access to the external store. -/
inductive StorageCall where
  | load (ref : DataRef)
  | store (schema : String) (docs : List Document)
deriving DecidableEq, Repr

def StorageCall.isStore : StorageCall → Bool
  | .store _ _ => true
  | .load _ => false

/-- Modelled from the spec: the schema tag for document collections,
`SchemaDocuments`, defined in the repository outside the embedded
sources; its exact value is irrelevant to every claim. -/
def SchemaDocuments : String := "documents"

def isOkE {α : Type} (e : Except String α) : Bool :=
  match e with
  | .ok _ => true
  | .error _ => false

/-- `LoadDocuments` from src/storage.go: the schema tag is checked before
any storage access; then the storage handle is obtained and `LoadJSON`
is called.  The second component is the log of storage accesses. -/
def LoadDocuments (w : World) (ref : DataRef) :
    Except String (List Document) × List StorageCall :=
  if ref.Schema ≠ SchemaDocuments then
    (.error ("schema mismatch: expected " ++ SchemaDocuments ++ ", got " ++ ref.Schema), [])
  else
    match w.getStorage with
    | .error e => (.error ("get storage: " ++ e), [])
    | .ok st =>
      match st.loadJSON ref with
      | .error e => (.error ("load documents: " ++ e), [StorageCall.load ref])
      | .ok docs => (.ok docs, [StorageCall.load ref])

/-- `StoreDocuments` from src/storage.go: obtain the storage handle,
marshal, call `StoreJSON`, then set the count and checksum on the
returned reference. -/
def StoreDocuments (w : World) (docs : List Document) :
    Except String DataRef × List StorageCall :=
  match w.getStorage with
  | .error e => (.error ("get storage: " ++ e), [])
  | .ok st =>
    match st.storeJSON SchemaDocuments docs with
    | .error e => (.error e, [StorageCall.store SchemaDocuments docs])
    | .ok ref =>
      (.ok { ref with Count := (docs.length : Int), Checksum := w.checksum (w.marshal docs) },
        [StorageCall.store SchemaDocuments docs])

/-- MergeRefsInput from src/merge.go. -/
structure MergeRefsInput where
  Refs : List DataRef
deriving DecidableEq, Repr

/-- MergeRefsOutput from src/merge.go. -/
structure MergeRefsOutput where
  Ref : DataRef
  Count : Int
deriving DecidableEq, Repr

/-- The load-then-store loop of `MergeRefsActivity` (src/merge.go lines
98-114): load every reference in order, returning the first load error
immediately; once all loads succeed, store the concatenation once. -/
def mergeRefsLoop (w : World) : List DataRef → List Document → List StorageCall →
    Except String MergeRefsOutput × List StorageCall
  | [], allDocs, log =>
    match StoreDocuments w allDocs with
    | (.ok ref, slog) => (.ok ⟨ref, (allDocs.length : Int)⟩, log ++ slog)
    | (.error e, slog) => (.error e, log ++ slog)
  | r :: rest, allDocs, log =>
    match LoadDocuments w r with
    | (.ok ds, llog) => mergeRefsLoop w rest (allDocs ++ ds) (log ++ llog)
    | (.error e, llog) => (.error e, log ++ llog)

/-- `MergeRefsActivity` from src/merge.go. -/
def MergeRefsActivity (w : World) (input : MergeRefsInput) :
    Except String MergeRefsOutput × List StorageCall :=
  mergeRefsLoop w input.Refs [] []

/-- The documents a successful load of a reference yields. -/
def loadedDocs (w : World) (r : DataRef) : List Document :=
  match (LoadDocuments w r).1 with
  | .ok ds => ds
  | .error _ => []

lemma LoadDocuments_no_store (w : World) (r : DataRef) :
    ∀ c ∈ (LoadDocuments w r).2, c.isStore = false := by
  intro c hc
  unfold LoadDocuments at hc
  split at hc
  · simp at hc
  · split at hc
    · simp at hc
    · split at hc <;> (simp at hc; subst hc; rfl)

lemma mergeRefsLoop_error (w : World) (r : DataRef) (post : List DataRef) (e : String)
    (he : (LoadDocuments w r).1 = .error e) :
    ∀ pre allDocs log, (∀ p ∈ pre, isOkE (LoadDocuments w p).1 = true) →
    mergeRefsLoop w (pre ++ r :: post) allDocs log =
      (.error e,
        log ++ (pre.map (fun p => (LoadDocuments w p).2)).flatten ++ (LoadDocuments w r).2) := by
  intro pre
  induction pre with
  | nil =>
    intro allDocs log hok
    rcases hl : LoadDocuments w r with ⟨res, lg⟩
    rw [hl] at he
    simp only [] at he
    subst he
    simp only [List.nil_append, mergeRefsLoop, hl]
    simp [hl]
  | cons p pre ih =>
    intro allDocs log hok
    have hp : isOkE (LoadDocuments w p).1 = true := hok p (by simp)
    rcases hl : LoadDocuments w p with ⟨res, lg⟩
    cases res with
    | error e2 => rw [hl] at hp; simp [isOkE] at hp
    | ok ds =>
      simp only [List.cons_append, mergeRefsLoop, hl, List.append_eq]
      rw [ih (allDocs ++ ds) (log ++ lg) (fun q hq => hok q (by simp [hq]))]
      simp [hl, List.append_assoc]

lemma mergeRefsLoop_ok (w : World) :
    ∀ refs allDocs log, (∀ p ∈ refs, isOkE (LoadDocuments w p).1 = true) →
    mergeRefsLoop w refs allDocs log =
      (match StoreDocuments w (allDocs ++ (refs.map (loadedDocs w)).flatten) with
       | (.ok ref, slog) =>
         (.ok ⟨ref, ((allDocs ++ (refs.map (loadedDocs w)).flatten).length : Int)⟩,
           log ++ (refs.map (fun p => (LoadDocuments w p).2)).flatten ++ slog)
       | (.error e2, slog) =>
         (.error e2, log ++ (refs.map (fun p => (LoadDocuments w p).2)).flatten ++ slog)) := by
  intro refs
  induction refs with
  | nil =>
    intro allDocs log hok
    simp only [List.map_nil, List.flatten_nil, List.append_nil, mergeRefsLoop]
  | cons r refs ih =>
    intro allDocs log hok
    have hr : isOkE (LoadDocuments w r).1 = true := hok r (by simp)
    rcases hl : LoadDocuments w r with ⟨res, lg⟩
    cases res with
    | error e2 => rw [hl] at hr; simp [isOkE] at hr
    | ok ds =>
      simp only [mergeRefsLoop, hl]
      rw [ih (allDocs ++ ds) (log ++ lg) (fun q hq => hok q (by simp [hq]))]
      have hld : loadedDocs w r = ds := by unfold loadedDocs; rw [hl]
      simp only [List.map_cons, List.flatten_cons, hld, hl]
      rcases hs : StoreDocuments w (allDocs ++ (ds ++ (refs.map (loadedDocs w)).flatten))
        with ⟨res2, slog⟩
      have hs2 : StoreDocuments w (allDocs ++ ds ++ (refs.map (loadedDocs w)).flatten) =
          (res2, slog) := by rw [List.append_assoc]; exact hs
      cases res2 <;> simp [hs, hs2, List.append_assoc]

lemma StoreDocuments_count (w : World) (docs : List Document) (ref : DataRef)
    (h : (StoreDocuments w docs).1 = .ok ref) : ref.Count = (docs.length : Int) := by
  unfold StoreDocuments at h
  split at h
  · simp at h
  · split at h
    · simp at h
    · have h2 := Except.ok.inj h
      rw [← h2]

/-! ### Sample data for witnesses and counterexamples -/

/-- A plain non-chunk document used in concrete instances. -/
def sampleDoc (id content : String) : Document :=
  { ID := id, Content := content, Title := "", Source := "test", URL := "",
    Metadata := none, ChunkIndex := 0, ParentID := "", UpdatedAt := 0 }

/-! ### Claim theorems -/

/-- C2: for every document whose content tokenizes to at most MaxTokens
tokens (including empty content), chunkDocument returns exactly the
original document, unchanged, as a one-element sequence. -/
theorem chunkDocument_small_unchanged (doc : Document) (opts : ChunkOptions)
    (h : ((tokenize doc.Content opts.Separator).length : Int) ≤ opts.MaxTokens) :
    chunkDocument doc opts = some [doc] := by
  unfold chunkDocument
  split
  · rfl
  · rw [if_pos h]

theorem chunkDocument_small_unchanged_witness :
    ((tokenize (sampleDoc ("s1") ("hi there")).Content ("\n\n")).length : Int) ≤ 100 ∧
    chunkDocument (sampleDoc ("s1") ("hi there"))
      { MaxTokens := 100, Overlap := 10, Separator := "\n\n" } =
      some [sampleDoc ("s1") ("hi there")] :=
  ⟨by decide, chunkDocument_small_unchanged _ _ (by decide)⟩

/-- C4 fails as stated: with the empty separator, Go `strings.Split`
explodes the text into single characters rather than yielding a single
paragraph, so `tokenize "ab cd" ""` is the character list
`["a","b","c","d"]`, not the whitespace splitting `["ab","cd"]`. -/
theorem tokenize_empty_separator_counterexample :
    tokenize ("ab cd") ("") = ["a", "b", "c", "d"] ∧
    goFields ("ab cd") = ["ab", "cd"] ∧
    tokenize ("ab cd") ("") ≠ goFields ("ab cd") := by decide

/-- C4 (amended): a nonempty separator that does not occur in the text
yields a single paragraph, so the token sequence equals splitting the
whole text on runs of whitespace; the empty separator instead explodes
the text into characters, keeping each non-whitespace character as a
one-character token. -/
theorem tokenize_degenerate_separator (text sep : String) :
    (sep ≠ "" → occursIn sep.data text.data = false →
      goSplit text sep = [text] ∧ tokenize text sep = goFields text) ∧
    tokenize text ("") =
      (text.data.filter (fun c => !goIsSpace c)).map (fun c => String.mk [c]) :=
  ⟨fun hne hno => ⟨goSplit_single text sep hne hno,
    tokenize_single_paragraph text sep hne hno⟩, tokenize_empty_sep text⟩

theorem tokenize_degenerate_separator_witness :
    ("|" : String) ≠ "" ∧
    occursIn ("|" : String).data ("hello world" : String).data = false ∧
    (goSplit ("hello world") ("|") = ["hello world"] ∧
      tokenize ("hello world") ("|") = goFields ("hello world")) :=
  ⟨by decide, by decide,
    (tokenize_degenerate_separator ("hello world") ("|")).1 (by decide) (by decide)⟩

/-- C3: the chunk-ID rule ID = parentID ++ "#" ++ decimal(chunkIndex)
fails for `Document.AsChunk` at index 10: `string(rune('0'+index))` is
the single code point 58, so the ID is "p#:" where the documented scheme
requires "p#10".  `chunkDocument` itself renders the index in decimal:
chunk 10 of a 12-token document has ID "d#10". -/
theorem asChunk_id_not_decimal :
    ((sampleDoc ("x") ("c")).AsChunk ("p") 10).ID = "p#:" ∧
    ((sampleDoc ("x") ("c")).AsChunk ("p") 10).ID ≠ "p#10" ∧
    ((sampleDoc ("x") ("c")).AsChunk ("p") 10).ChunkIndex = 10 ∧
    ((sampleDoc ("x") ("c")).AsChunk ("p") 10).ParentID = "p" ∧
    (((chunkDocument (sampleDoc ("d") ("t0 t1 t2 t3 t4 t5 t6 t7 t8 t9 t10 t11"))
        { MaxTokens := 1, Overlap := 0, Separator := "\n\n" }).getD []).map
      (fun c => c.ID)).getD 10 ("") = "d#10" := by decide

/-- C8: merging document lists or sources returns their concatenation in
the order given; the length is the sum of the input lengths. -/
theorem merge_is_concatenation (ls : List (List Document)) (ss : List DocumentSource) :
    MergeDocuments ls = ls.flatten ∧
    (MergeDocuments ls).length = (ls.map List.length).sum ∧
    MergeSources ss = (ss.map DocumentSource.toDocuments).flatten ∧
    (MergeSources ss).length = (ss.map (fun s => s.toDocuments.length)).sum := by
  have h1 : MergeDocuments ls = ls.flatten := by
    unfold MergeDocuments; rw [foldl_append_eq_flatten]; simp
  have h2 : MergeSources ss = (ss.map DocumentSource.toDocuments).flatten := by
    unfold MergeSources
    rw [← List.foldl_map, foldl_append_eq_flatten]
    simp
  refine ⟨h1, ?_, h2, ?_⟩
  · rw [h1]; simp [List.length_flatten]
  · rw [h2]; simp [List.length_flatten, List.map_map]
    rfl

/-- C1 fails as stated: with MaxTokens 1 and Overlap -2 (step 3), a
two-token document yields a single chunk whose content "a" does not end
with the final token "b", while the formula ceil((2-1)/3)+1 demands 2
chunks; the tail of the token sequence is dropped because the step
exceeds MaxTokens. -/
theorem chunk_count_formula_counterexample :
    (tokenize (sampleDoc ("d") ("a b")).Content ("\n\n")).length = 2 ∧
    ((2 : Int) > ({ MaxTokens := 1, Overlap := -2, Separator := "\n\n" } : ChunkOptions).MaxTokens) ∧
    chunkDocument (sampleDoc ("d") ("a b"))
      { MaxTokens := 1, Overlap := -2, Separator := "\n\n" } =
      some [{ sampleDoc ("d") ("a b") with
        ID := "d#0", Content := "a", ChunkIndex := 0, ParentID := "d" }] ∧
    ((2 - (1 : Nat)) +
        (stepOf { MaxTokens := 1, Overlap := -2, Separator := "\n\n" }).toNat - 1) /
      (stepOf { MaxTokens := 1, Overlap := -2, Separator := "\n\n" }).toNat + 1 = 2 := by
  decide

/-- C1 (amended): for MaxTokens ≥ 1 and Overlap ≥ 0, a document of N
tokens with N > MaxTokens is split into exactly
ceil((N - MaxTokens) / step) + 1 chunks, step = max(1, MaxTokens -
Overlap), and the last chunk's content ends with the final token. -/
theorem chunk_count_formula (doc : Document) (opts : ChunkOptions)
    (h1 : 1 ≤ opts.MaxTokens) (h2 : 0 ≤ opts.Overlap)
    (h3 : opts.MaxTokens < ((tokenize doc.Content opts.Separator).length : Int)) :
    ∃ chunks, chunkDocument doc opts = some chunks ∧
      chunks.length =
        (((tokenize doc.Content opts.Separator).length - opts.MaxTokens.toNat) +
          (stepOf opts).toNat - 1) / (stepOf opts).toNat + 1 ∧
      ∃ t c p, (tokenize doc.Content opts.Separator).getLast? = some t ∧
        chunks.getLast? = some c ∧ c.Content = p ++ t := by
  have hcne : ¬ doc.Content = "" := by
    intro hc
    rw [hc, tokenize_empty_content opts.Separator] at h3
    simp at h3
    omega
  have hpos : 0 < (tokenize doc.Content opts.Separator).length := by omega
  obtain ⟨l, hl, hlen, st2, c, hst2a, hst2b, hlast, hcont⟩ :=
    chunkLoop_spec doc opts (tokenize doc.Content opts.Separator) h1 h2
      (tokenize doc.Content opts.Separator).length 0 0 hpos (by omega)
  refine ⟨l, ?_, ?_, ?_⟩
  · unfold chunkDocument
    rw [if_neg hcne, if_neg (by omega)]
    exact hl
  · simpa using hlen
  · have hw : ((tokenize doc.Content opts.Separator).drop st2) ≠ [] := by
      intro h0
      have := congrArg List.length h0
      simp at this
      omega
    rcases List.eq_nil_or_concat ((tokenize doc.Content opts.Separator).drop st2) with
      h0 | ⟨ys, t, hyt⟩
    · exact absurd h0 hw
    · rw [List.concat_eq_append] at hyt
      obtain ⟨p, hp⟩ := goJoin_concat (" ") ys t
      refine ⟨t, c, p, ?_, hlast, ?_⟩
      · have ht : (tokenize doc.Content opts.Separator).getLast? =
            ((tokenize doc.Content opts.Separator).take st2 ++
              (tokenize doc.Content opts.Separator).drop st2).getLast? := by
          rw [List.take_append_drop]
        rw [ht, hyt, ← List.append_assoc]
        exact List.getLast?_concat _
      · rw [hcont, hyt, hp]

theorem chunk_count_formula_witness :
    ((1 : Int) ≤ 2) ∧ ((0 : Int) ≤ 1) ∧
    ((2 : Int) <
      ((tokenize (sampleDoc ("w1") ("a b c")).Content
        ({ MaxTokens := 2, Overlap := 1, Separator := "\n\n" } : ChunkOptions).Separator).length : Int)) ∧
    (∃ chunks, chunkDocument (sampleDoc ("w1") ("a b c"))
        { MaxTokens := 2, Overlap := 1, Separator := "\n\n" } = some chunks ∧
      chunks.length =
        (((tokenize (sampleDoc ("w1") ("a b c")).Content
            ({ MaxTokens := 2, Overlap := 1, Separator := "\n\n" } : ChunkOptions).Separator).length -
          ({ MaxTokens := 2, Overlap := 1, Separator := "\n\n" } : ChunkOptions).MaxTokens.toNat) +
          (stepOf { MaxTokens := 2, Overlap := 1, Separator := "\n\n" }).toNat - 1) /
          (stepOf { MaxTokens := 2, Overlap := 1, Separator := "\n\n" }).toNat + 1 ∧
      ∃ t c p, (tokenize (sampleDoc ("w1") ("a b c")).Content
          ({ MaxTokens := 2, Overlap := 1, Separator := "\n\n" } : ChunkOptions).Separator).getLast? =
            some t ∧
        chunks.getLast? = some c ∧ c.Content = p ++ t) :=
  ⟨by decide, by decide, by decide,
    chunk_count_formula (sampleDoc ("w1") ("a b c"))
      { MaxTokens := 2, Overlap := 1, Separator := "\n\n" } (by decide) (by decide) (by decide)⟩

/-- C6: for every option set, including overlap ≥ maxTokens, the
sliding-window loop of chunkDocument is insensitive to any iteration
budget of at least the token count, because the clamped step is at least
1, so the loop terminates within tokens.length iterations. -/
theorem chunkLoop_terminates (doc : Document) (opts : ChunkOptions) (fuel : Nat)
    (h : (tokenize doc.Content opts.Separator).length ≤ fuel) :
    1 ≤ stepOf opts ∧
    chunkLoop doc opts (tokenize doc.Content opts.Separator) fuel 0 0 =
      chunkLoop doc opts (tokenize doc.Content opts.Separator)
        (tokenize doc.Content opts.Separator).length 0 0 :=
  ⟨stepOf_pos opts,
    chunkLoop_fuel_stable doc opts (tokenize doc.Content opts.Separator) fuel
      (tokenize doc.Content opts.Separator).length 0 0 (by omega) (by omega)⟩

theorem chunkLoop_terminates_witness :
    ((tokenize (sampleDoc ("w6") ("a b c")).Content
      ({ MaxTokens := 1, Overlap := 5, Separator := "\n\n" } : ChunkOptions).Separator).length ≤ 10) ∧
    (1 ≤ stepOf { MaxTokens := 1, Overlap := 5, Separator := "\n\n" } ∧
      chunkLoop (sampleDoc ("w6") ("a b c")) { MaxTokens := 1, Overlap := 5, Separator := "\n\n" }
        (tokenize (sampleDoc ("w6") ("a b c")).Content
          ({ MaxTokens := 1, Overlap := 5, Separator := "\n\n" } : ChunkOptions).Separator) 10 0 0 =
      chunkLoop (sampleDoc ("w6") ("a b c")) { MaxTokens := 1, Overlap := 5, Separator := "\n\n" }
        (tokenize (sampleDoc ("w6") ("a b c")).Content
          ({ MaxTokens := 1, Overlap := 5, Separator := "\n\n" } : ChunkOptions).Separator)
        (tokenize (sampleDoc ("w6") ("a b c")).Content
          ({ MaxTokens := 1, Overlap := 5, Separator := "\n\n" } : ChunkOptions).Separator).length
        0 0) :=
  ⟨by decide,
    chunkLoop_terminates (sampleDoc ("w6") ("a b c"))
      { MaxTokens := 1, Overlap := 5, Separator := "\n\n" } 10 (by decide)⟩

lemma mapM_option_isSome {α β : Type} (f : α → Option β) :
    ∀ l : List α, (∀ a ∈ l, (f a).isSome) → (l.mapM f).isSome := by
  intro l
  induction l with
  | nil => intro _; rfl
  | cons a l ih =>
    intro h
    rw [List.mapM_cons]
    cases hfa : f a with
    | none =>
      have := h a (by simp)
      rw [hfa] at this
      simp at this
    | some b =>
      cases hml : l.mapM f with
      | none =>
        have := ih (fun x hx => h x (by simp [hx]))
        rw [hml] at this
        simp at this
      | some bs => simp [hfa, hml]

lemma chunkDocument_isSome (doc : Document) (opts : ChunkOptions)
    (hM : 0 ≤ opts.MaxTokens) : (chunkDocument doc opts).isSome := by
  unfold chunkDocument
  split
  · simp
  · by_cases hle : ((tokenize doc.Content opts.Separator).length : Int) ≤ opts.MaxTokens
    · rw [if_pos hle]; simp
    · rw [if_neg hle]
      exact chunkLoop_isSome doc opts (tokenize doc.Content opts.Separator) hM
        (tokenize doc.Content opts.Separator).length 0 0 (by omega)

/-- C5 fails as stated: a negative MaxTokens is neither defaulted nor
clamped (only MaxTokens == 0 triggers the default options), and chunking
a document whose content tokenizes to at least one token then evaluates
tokens[start:end] with end < start, an out-of-range slice, i.e. a Go
panic, modelled as none. -/
theorem chunk_negative_maxtokens_counterexample :
    ({ Documents := [sampleDoc ("d5") ("a b")],
       Options := { MaxTokens := -1, Overlap := 0, Separator := "" } } : ChunkInput).Options.MaxTokens < 0 ∧
    ChunkActivity
      { Documents := [sampleDoc ("d5") ("a b")],
        Options := { MaxTokens := -1, Overlap := 0, Separator := "" } } = none := by
  decide

/-- C5 (amended): for every document and every ChunkOptions with zero
MaxTokens, chunking never panics: the default option set is substituted
and a well-defined result with a nil error is produced; a negative
MaxTokens is passed through unresolved and panics as soon as a
document's content tokenizes to at least one token. -/
theorem chunkActivity_zero_maxtokens_safe (input : ChunkInput)
    (h : input.Options.MaxTokens = 0) :
    ∃ out, ChunkActivity input = some (out, none) := by
  unfold ChunkActivity
  have hro : resolveOptions input.Options = DefaultChunkOptions := by
    unfold resolveOptions; rw [if_pos h]
  rw [hro]
  cases hm : input.Documents.mapM (fun d => chunkDocument d DefaultChunkOptions) with
  | none =>
    have hsome := mapM_option_isSome (fun d => chunkDocument d DefaultChunkOptions)
      input.Documents (fun d _ => chunkDocument_isSome d DefaultChunkOptions (by decide))
    rw [hm] at hsome
    simp at hsome
  | some ls =>
    exact ⟨_, rfl⟩

theorem chunkActivity_zero_maxtokens_safe_witness :
    ({ Documents := [sampleDoc ("w5") ("x y")],
       Options := { MaxTokens := 0, Overlap := 0, Separator := "" } } : ChunkInput).Options.MaxTokens = 0 ∧
    ∃ out, ChunkActivity
      { Documents := [sampleDoc ("w5") ("x y")],
        Options := { MaxTokens := 0, Overlap := 0, Separator := "" } } = some (out, none) :=
  ⟨by decide, chunkActivity_zero_maxtokens_safe _ (by decide)⟩

/-- C10 fails as stated: MergeAndChunkActivity panics (does not return a
nil error) when the options carry a negative MaxTokens and a source
document tokenizes to at least one token. -/
theorem activities_never_fail_counterexample :
    MergeAndChunkActivity
      { Sources := [{ toDocuments := [sampleDoc ("d10") ("x y z")] }],
        Options := { MaxTokens := -2, Overlap := 0, Separator := "" } } = none := by
  decide

/-- C10 (amended): whenever the pure transformer activities return, the
error is nil and the output Count equals the length of the Documents
list; MergeActivity always returns; ChunkActivity and
MergeAndChunkActivity can fail to return only by the negative-MaxTokens
panic of chunkDocument. -/
theorem activities_nil_error_and_count (ci : ChunkInput) (mi : MergeInput)
    (mci : MergeAndChunkInput) :
    (∀ out err, ChunkActivity ci = some (out, err) →
      err = none ∧ out.Count = (out.Documents.length : Int)) ∧
    (∀ out err, MergeAndChunkActivity mci = some (out, err) →
      err = none ∧ out.Count = (out.Documents.length : Int)) ∧
    (∃ out, MergeActivity mi = some (out, none) ∧
      out.Count = (out.Documents.length : Int)) := by
  refine ⟨?_, ?_, ?_⟩
  · intro out err h
    unfold ChunkActivity at h
    rcases hm : ci.Documents.mapM (fun d => chunkDocument d (resolveOptions ci.Options)) with
      _ | ls
    · rw [hm] at h; exact absurd h (by simp)
    · rw [hm] at h
      have h2 := Option.some.inj h
      rw [Prod.mk.injEq] at h2
      obtain ⟨ho, he⟩ := h2
      refine ⟨he.symm, ?_⟩
      rw [← ho]
  · intro out err h
    unfold MergeAndChunkActivity at h
    rcases hm : ((mci.Sources.map DocumentSource.toDocuments).flatten).mapM
        (fun d => chunkDocument d (resolveOptions mci.Options)) with _ | ls
    · rw [hm] at h; exact absurd h (by simp)
    · rw [hm] at h
      have h2 := Option.some.inj h
      rw [Prod.mk.injEq] at h2
      obtain ⟨ho, he⟩ := h2
      refine ⟨he.symm, ?_⟩
      rw [← ho]
  · exact ⟨_, rfl, rfl⟩

theorem activities_nil_error_and_count_witness :
    (none : Option String) = none ∧
    ({ Documents := [sampleDoc ("w10") ("p q")], Count := 1 } : ChunkOutput).Count =
      (({ Documents := [sampleDoc ("w10") ("p q")], Count := 1 } : ChunkOutput).Documents.length : Int) :=
  (activities_nil_error_and_count
    { Documents := [sampleDoc ("w10") ("p q")],
      Options := { MaxTokens := 512, Overlap := 50, Separator := "\n\n" } }
    { Sources := [] } { Sources := [], Options := DefaultChunkOptions }).1
    { Documents := [sampleDoc ("w10") ("p q")], Count := 1 } none (by decide)

/-- C7: every chunk emitted by chunkDocument carries a value copy of the
parent's metadata: the same map (nil stays nil, so absence is preserved
and an empty map stays an empty map), and on the heap model of Go maps
the copy lives at a fresh address, so writing a key into the chunk's map
leaves the parent document's map unchanged. -/
theorem chunk_metadata_copy (doc : Document) (opts : ChunkOptions) (chunks : List Document)
    (hnd : ∀ m, doc.Metadata = some m → (m.map Prod.fst).Nodup)
    (hch : chunkDocument doc opts = some chunks)
    (h : MetaHeap) (a : Nat) (ha : a < h.maps.length)
    (hhnd : ((h.maps.getD a []).map Prod.fst).Nodup) (k v : String) :
    (∀ c ∈ chunks, c.Metadata = doc.Metadata) ∧
    heapCopyMetadata h none = (h, none) ∧
    (heapCopyMetadata h (some a)).2 = some h.maps.length ∧
    h.maps.length ≠ a ∧
    (heapCopyMetadata h (some a)).1.maps.getD h.maps.length [] = h.maps.getD a [] ∧
    (heapSet (heapCopyMetadata h (some a)).1 h.maps.length k v).maps.getD a [] =
      h.maps.getD a [] := by
  obtain ⟨h1, h2, h3, h4⟩ := heap_copy_spec h a ha hhnd k v
  refine ⟨?_, rfl, h1, h2, h3, h4⟩
  intro c hc
  unfold chunkDocument at hch
  split at hch
  · obtain rfl := Option.some.inj hch
    rcases List.mem_singleton.mp hc with rfl
    rfl
  · by_cases hle : ((tokenize doc.Content opts.Separator).length : Int) ≤ opts.MaxTokens
    · rw [if_pos hle] at hch
      obtain rfl := Option.some.inj hch
      rcases List.mem_singleton.mp hc with rfl
      rfl
    · rw [if_neg hle] at hch
      have hmeta := chunkLoop_metadata doc opts (tokenize doc.Content opts.Separator)
        (tokenize doc.Content opts.Separator).length 0 0 chunks hch c hc
      rw [hmeta, copyMetadata_eq doc.Metadata hnd]

/-- A document with populated metadata, used in concrete instances. -/
def wMetaDoc : Document :=
  { ID := "m", Content := "a b c", Title := "", Source := "test", URL := "",
    Metadata := some [("k", "v")], ChunkIndex := 0, ParentID := "", UpdatedAt := 0 }

/-- The chunks of `wMetaDoc` at MaxTokens 2, Overlap 0. -/
def wMetaChunks : List Document :=
  [{ wMetaDoc with ID := "m#0", Content := "a b", ChunkIndex := 0, ParentID := "m" },
   { wMetaDoc with ID := "m#1", Content := "c", ChunkIndex := 1, ParentID := "m" }]

/-- A one-map heap used in concrete instances. -/
def wHeap : MetaHeap := { maps := [[("k", "v")]] }

theorem chunk_metadata_copy_witness :
    (∀ c ∈ wMetaChunks, c.Metadata = wMetaDoc.Metadata) ∧
    heapCopyMetadata wHeap none = (wHeap, none) ∧
    (heapCopyMetadata wHeap (some 0)).2 = some wHeap.maps.length ∧
    wHeap.maps.length ≠ 0 ∧
    (heapCopyMetadata wHeap (some 0)).1.maps.getD wHeap.maps.length [] =
      wHeap.maps.getD 0 [] ∧
    (heapSet (heapCopyMetadata wHeap (some 0)).1 wHeap.maps.length ("n") ("w")).maps.getD 0 [] =
      wHeap.maps.getD 0 [] :=
  chunk_metadata_copy wMetaDoc { MaxTokens := 2, Overlap := 0, Separator := "\n\n" }
    wMetaChunks
    (fun m hm => by
      have h2 : [("k", "v")] = m := Option.some.inj hm
      subst h2
      decide)
    (by decide) wHeap 0 (by decide) (by decide) ("n") ("w")

lemma StoreDocuments_ok_getStorage (w : World) (docs : List Document) (ref : DataRef)
    (h : (StoreDocuments w docs).1 = .ok ref) : ∃ st, w.getStorage = .ok st := by
  cases hg : w.getStorage with
  | error e =>
    unfold StoreDocuments at h
    rw [hg] at h
    simp at h
  | ok st => exact ⟨st, rfl⟩

lemma StoreDocuments_log_getStorage_ok (w : World) (docs : List Document) (st : Storage)
    (hg : w.getStorage = .ok st) :
    (StoreDocuments w docs).2 = [StorageCall.store SchemaDocuments docs] := by
  unfold StoreDocuments
  rw [hg]
  show (match st.storeJSON SchemaDocuments docs with
      | Except.error e => (Except.error e, [StorageCall.store SchemaDocuments docs])
      | Except.ok ref =>
        (Except.ok { ref with
            Count := (docs.length : Int), Checksum := w.checksum (w.marshal docs) },
          [StorageCall.store SchemaDocuments docs])).2 =
    [StorageCall.store SchemaDocuments docs]
  cases hsj : st.storeJSON SchemaDocuments docs with
  | error e2 => rfl
  | ok ref3 => rfl

/-- C9: merge-by-reference fails fast: if the loads of a prefix succeed
and the next reference's load fails, the first load error is returned
and the store is never called; a schema-tag mismatch is reported before
any storage access for that reference; when every load succeeds and the
store succeeds, the documents are concatenated in order, stored exactly
once, and returned as a new reference carrying the merged count. -/
theorem mergeRefs_fail_fast (w : World) (pre post refs : List DataRef) (r : DataRef)
    (e : String) :
    ((∀ p ∈ pre, isOkE (LoadDocuments w p).1 = true) → (LoadDocuments w r).1 = .error e →
      (MergeRefsActivity w { Refs := pre ++ r :: post }).1 = .error e ∧
      ∀ c ∈ (MergeRefsActivity w { Refs := pre ++ r :: post }).2, c.isStore = false) ∧
    (r.Schema ≠ SchemaDocuments →
      (LoadDocuments w r).2 = [] ∧
      (LoadDocuments w r).1 =
        .error ("schema mismatch: expected " ++ SchemaDocuments ++ ", got " ++ r.Schema)) ∧
    ((∀ p ∈ refs, isOkE (LoadDocuments w p).1 = true) →
      ∀ ref2, (StoreDocuments w ((refs.map (loadedDocs w)).flatten)).1 = .ok ref2 →
      (MergeRefsActivity w { Refs := refs }).1 =
        .ok { Ref := ref2, Count := (((refs.map (loadedDocs w)).flatten).length : Int) } ∧
      ref2.Count = (((refs.map (loadedDocs w)).flatten).length : Int) ∧
      (MergeRefsActivity w { Refs := refs }).2 =
        (refs.map (fun p => (LoadDocuments w p).2)).flatten ++
          [StorageCall.store SchemaDocuments ((refs.map (loadedDocs w)).flatten)]) := by
  refine ⟨?_, ?_, ?_⟩
  · intro hok he
    unfold MergeRefsActivity
    rw [mergeRefsLoop_error w r post e he pre [] [] hok]
    refine ⟨rfl, ?_⟩
    intro c hc
    simp only [List.nil_append, List.mem_append, List.mem_flatten, List.mem_map] at hc
    rcases hc with ⟨lg, ⟨p2, hp2, hlg⟩, hclg⟩ | hc2
    · exact LoadDocuments_no_store w p2 c (hlg ▸ hclg)
    · exact LoadDocuments_no_store w r c hc2
  · intro hs
    unfold LoadDocuments
    rw [if_pos hs]
    exact ⟨rfl, rfl⟩
  · intro hok ref2 hst
    have hcount := StoreDocuments_count w ((refs.map (loadedDocs w)).flatten) ref2 hst
    obtain ⟨st, hgs⟩ := StoreDocuments_ok_getStorage w _ ref2 hst
    have hlog := StoreDocuments_log_getStorage_ok w ((refs.map (loadedDocs w)).flatten) st hgs
    unfold MergeRefsActivity
    rw [mergeRefsLoop_ok w refs [] [] hok]
    simp only [List.nil_append]
    rcases hsd : StoreDocuments w ((refs.map (loadedDocs w)).flatten) with ⟨res, slog⟩
    rw [hsd] at hst hlog
    simp only [] at hst hlog
    subst hst
    subst hlog
    exact ⟨rfl, hcount, rfl⟩

/-- A concrete storage used in witnesses: loads succeed for references
whose checksum is "good". -/
def wStorage : Storage :=
  { loadJSON := fun r =>
      if r.Checksum = "good" then .ok [sampleDoc ("r1") ("a")] else .error "boom",
    storeJSON := fun sch _ => .ok { Schema := sch, Count := 0, Checksum := "" } }

/-- A concrete world used in witnesses. -/
def wWorld : World :=
  { getStorage := .ok wStorage, marshal := fun _ => "[]", checksum := fun _ => "c" }

/-- A reference with the document schema whose load succeeds. -/
def goodRef : DataRef := { Schema := SchemaDocuments, Count := 1, Checksum := "good" }

/-- A reference with a mismatched schema tag. -/
def badRef : DataRef := { Schema := "other", Count := 0, Checksum := "good" }

theorem mergeRefs_fail_fast_witness :
    ((MergeRefsActivity wWorld { Refs := [goodRef] ++ badRef :: [] }).1 =
        .error ("schema mismatch: expected documents, got other") ∧
      ∀ c ∈ (MergeRefsActivity wWorld { Refs := [goodRef] ++ badRef :: [] }).2,
        c.isStore = false) ∧
    ((LoadDocuments wWorld badRef).2 = [] ∧
      (LoadDocuments wWorld badRef).1 =
        .error ("schema mismatch: expected " ++ SchemaDocuments ++ ", got " ++ badRef.Schema)) ∧
    ((MergeRefsActivity wWorld { Refs := [goodRef] }).1 =
        .ok { Ref := { Schema := "documents", Count := 1, Checksum := "c" },
              Count := ((([goodRef].map (loadedDocs wWorld)).flatten).length : Int) } ∧
      ({ Schema := "documents", Count := 1, Checksum := "c" } : DataRef).Count =
        ((([goodRef].map (loadedDocs wWorld)).flatten).length : Int) ∧
      (MergeRefsActivity wWorld { Refs := [goodRef] }).2 =
        ([goodRef].map (fun p => (LoadDocuments wWorld p).2)).flatten ++
          [StorageCall.store SchemaDocuments (([goodRef].map (loadedDocs wWorld)).flatten)]) :=
  ⟨(mergeRefs_fail_fast wWorld [goodRef] [] [goodRef] badRef
      ("schema mismatch: expected documents, got other")).1
    (by decide) (by rfl),
   (mergeRefs_fail_fast wWorld [goodRef] [] [goodRef] badRef
      ("schema mismatch: expected documents, got other")).2.1
    (by decide),
   (mergeRefs_fail_fast wWorld [goodRef] [] [goodRef] badRef
      ("schema mismatch: expected documents, got other")).2.2
    (by decide) { Schema := "documents", Count := 1, Checksum := "c" } (by rfl)⟩
